import Mathlib

/-!
Verification of the cargo-stowage placement-and-scoring engine
(`backend/app/api/endpoints/optimization.py`).

Shallow embedding conventions:
* Python `float` fields (dimensions, positions) are modelled as exact
  rationals `ℚ`; `int` fields (`id`, `priority`) as `ℤ`.
* `np.sqrt` is modelled as an abstract parameter `sq : ℚ → ℚ`; no claim
  below depends on any property of the square root itself.
* Fallible Python operations are modelled with `Except PyErr`:
  - plain `float`/`int` division raises `ZeroDivisionError` on a zero
    denominator (`pydiv` below); numpy-scalar division does NOT raise —
    it yields `inf`/`nan` with a warning, and the collapse of those
    values through the final clamp is spelled out where it occurs;
  - comparing a `datetime` with a `float` raises `TypeError`, which is
    what `sorted(..., key=lambda x: (-x.priority, x.expiry_date or
    float('inf')))` does when two equal-priority items mix a present
    and an absent expiry date.
-/

deriving instance DecidableEq for Except

namespace Stowage

/-- Python exception kinds that the embedded code can raise. -/
inductive PyErr where
  | typeError
  | zeroDivisionError
deriving DecidableEq, Repr

/-- `Item` row (`models.py`): the fields the optimization endpoint reads.
`expiry_date` is a nullable `DateTime` column, modelled as an optional
timestamp. String metadata, flags and geometry columns are never read by
the planner or the scorers and are omitted. -/
structure Item where
  id : ℤ
  width : ℚ
  height : ℚ
  depth : ℚ
  weight : ℚ := 0
  priority : ℤ := 1
  expiry_date : Option ℚ := none
deriving DecidableEq, Repr

/-- `Container` row: the three dimensions are the only fields the
planner and scorers consult. -/
structure Container where
  width : ℚ
  height : ℚ
  depth : ℚ
deriving DecidableEq, Repr

/-- One entry of the `item_positions` list built by
`optimize_cargo_placement`: item id, position, rotation. -/
structure Placement where
  item_id : ℤ
  position_x : ℚ
  position_y : ℚ
  position_z : ℚ
  rotation_x : ℚ := 0
  rotation_y : ℚ := 0
  rotation_z : ℚ := 0
deriving DecidableEq, Repr

/-! ### The sort key `(-x.priority, x.expiry_date or float('inf'))` -/

/-- Second component of the sort key: `x.expiry_date or float('inf')`.
A present expiry is a `datetime`; an absent one becomes the *float*
infinity — two values of different Python types. -/
inductive ExpiryKey where
  | dt (t : ℚ)
  | inf
deriving DecidableEq, Repr

def expiryKey (i : Item) : ExpiryKey :=
  match i.expiry_date with
  | some t => .dt t
  | none => .inf

/-- Python `<` on the second key component: `datetime < datetime`
compares timestamps, `float('inf') < float('inf')` is `False`, and a
`datetime`/`float` comparison raises `TypeError` (Python 3). -/
def expiryLt : ExpiryKey → ExpiryKey → Except PyErr Bool
  | .dt a, .dt b => .ok (decide (a < b))
  | .inf, .inf => .ok false
  | _, _ => .error .typeError

/-- Python `<` on the whole key tuple: compare `-priority` first, fall
through to the expiry component only on a tie. -/
def keyLt (a b : Item) : Except PyErr Bool :=
  if -a.priority < -b.priority then .ok true
  else if -b.priority < -a.priority then .ok false
  else expiryLt (expiryKey a) (expiryKey b)

/-- Insert `a` into an already-sorted list, before the first element
`b` with `¬ (b < a)` — the stable-insertion step. A comparison fault
aborts the whole sort, as an exception escaping `sorted` would. -/
def finsert (a : Item) : List Item → Except PyErr (List Item)
  | [] => .ok [a]
  | b :: l =>
    match keyLt b a with
    | .error e => .error e
    | .ok true =>
      match finsert a l with
      | .error e => .error e
      | .ok r => .ok (b :: r)
    | .ok false => .ok (a :: b :: l)

/-- Model of Python's stable `sorted(items, key=...)` using only the
key's `<`. On inputs where every performed comparison succeeds this is
the unique stable sort; a `TypeError` raised by an incomparable pair
aborts it (for the two-element inputs used below the compared pair is
exactly the pair Python's sort compares). -/
def fsort : List Item → Except PyErr (List Item)
  | [] => .ok []
  | a :: l =>
    match fsort l with
    | .error e => .error e
    | .ok r => finsert a r

/-! ### The greedy planner `optimize_cargo_placement` -/

/-- Python's `max(l or [0])`: maximum of a nonempty list, `0` when the
list is empty. -/
def pymax : List ℚ → ℚ
  | [] => 0
  | h :: t => t.foldl max h

/-- `[p["item_id"] for p in item_positions[-k:]]` — ids of the last `k`
placements (order is irrelevant, only membership is used). -/
def lastIds (k : Nat) (ps : List Placement) : List ℤ :=
  (ps.reverse.take k).map (·.item_id)

/-- `max([f(i) for i in items if i.id in lastIds] or [0])` — the
trailing-window maximum used to advance the row/layer cursor. -/
def windowMax (k : Nat) (f : Item → ℚ) (items : List Item)
    (ps : List Placement) : ℚ :=
  pymax ((items.filter (fun i => decide (i.id ∈ lastIds k ps))).map f)

/-- Cursor and accumulated placements of the greedy loop. -/
structure PlanState where
  x : ℚ
  y : ℚ
  z : ℚ
  placed : List Placement
deriving DecidableEq, Repr

def mkPlacement (id : ℤ) (x y z : ℚ) : Placement :=
  { item_id := id, position_x := x, position_y := y, position_z := z,
    rotation_x := 0, rotation_y := 0, rotation_z := 0 }

/-- One iteration of the loop body: the three placement branches, or
`none` when all three checks fail (the `else: break` case). The
next-row / next-layer branches advance the cursor by the trailing
window maximum *before* placing, exactly as the source does. -/
def step (c : Container) (items : List Item) (st : PlanState)
    (it : Item) : Option PlanState :=
  if st.x + it.width ≤ c.width then
    some { x := st.x + it.width, y := st.y, z := st.z,
           placed := st.placed ++ [mkPlacement it.id st.x st.y st.z] }
  else if st.y + it.height ≤ c.height then
    let y' := st.y + windowMax 5 (·.height) items st.placed
    some { x := it.width, y := y', z := st.z,
           placed := st.placed ++ [mkPlacement it.id 0 y' st.z] }
  else if st.z + it.depth ≤ c.depth then
    let z' := st.z + windowMax 10 (·.depth) items st.placed
    some { x := it.width, y := 0, z := z',
           placed := st.placed ++ [mkPlacement it.id 0 0 z'] }
  else none

/-- The `for item in sorted(...)` loop with its `break`. -/
def planLoop (c : Container) (items : List Item) :
    PlanState → List Item → PlanState
  | st, [] => st
  | st, it :: rest =>
    match step c items st it with
    | some st' => planLoop c items st' rest
    | none => st

/-- `optimize_cargo_placement(container, items)`: sort (which can raise
`TypeError`), then run the greedy loop from the origin cursor. -/
def optimize_cargo_placement (c : Container) (items : List Item) :
    Except PyErr (List Placement) :=
  match fsort items with
  | .error e => .error e
  | .ok sortedItems => .ok (planLoop c items ⟨0, 0, 0, []⟩ sortedItems).placed

/-! ### Scorers -/

/-- Plain Python division (`float`/`float` or `int`/`int`): raises
`ZeroDivisionError` on a zero denominator. -/
def pydiv (a b : ℚ) : Except PyErr ℚ :=
  if b = 0 then .error .zeroDivisionError else .ok (a / b)

/-- `next((i for i in items if i.id == wanted), None)` — first item with
the given id. -/
def findItem (items : List Item) (wanted : ℤ) : Option Item :=
  items.find? (fun i => decide (i.id = wanted))

/-- `calculate_space_efficiency(container, items, item_positions)`:
100 × (matched placed volume / container volume), capped at 100;
`0` when the container volume is not positive. The division is guarded
by `container_volume > 0`, so it can never raise. -/
def calculate_space_efficiency (c : Container) (items : List Item)
    (ps : List Placement) : Except PyErr ℚ :=
  let container_volume := c.width * c.height * c.depth
  let item_volume := ps.foldl (fun acc p =>
    match findItem items p.item_id with
    | some i => acc + i.width * i.height * i.depth
    | none => acc) 0
  if container_volume > 0 then
    match pydiv item_volume container_volume with
    | .error e => .error e
    | .ok r => .ok (min (r * 100) 100)
  else .ok 0

/-- `next((i.width for i in items if i.id == pos["item_id"]), 0)` —
dimension of the matching item, `0` when no item matches. -/
def findDim (items : List Item) (wanted : ℤ) (f : Item → ℚ) : ℚ :=
  match findItem items wanted with
  | some i => f i
  | none => 0

/-- The edge test of `calculate_accessibility`: the placement touches
an edge if any coordinate is `0` or position + (looked-up extent, `0`
for a dangling id) reaches the corresponding container face. -/
def isAccessible (c : Container) (items : List Item) (p : Placement) : Bool :=
  decide (p.position_x = 0) || decide (p.position_y = 0) ||
  decide (p.position_z = 0) ||
  decide (c.width ≤ p.position_x + findDim items p.item_id (·.width)) ||
  decide (c.height ≤ p.position_y + findDim items p.item_id (·.height)) ||
  decide (c.depth ≤ p.position_z + findDim items p.item_id (·.depth))

/-- `calculate_accessibility(container, items, item_positions)`:
100 × accessible placements / total placements, `100` when there are no
placements. The `int / int` division is guarded by the zero check. -/
def calculate_accessibility (c : Container) (items : List Item)
    (ps : List Placement) : Except PyErr ℚ :=
  let total_items := ps.length
  if total_items = 0 then .ok 100
  else
    let accessible_items := (ps.filter (fun p => isAccessible c items p)).length
    match pydiv (accessible_items : ℚ) (total_items : ℚ) with
    | .error e => .error e
    | .ok r => .ok (r * 100)

/-- The placements that match an item, paired with that item: the code
builds `distances` and `priority_weights` in one pass over
`item_positions`, skipping positions whose id matches no item, so the
two lists are aligned; we keep the pairs instead. -/
def matchedPairs (items : List Item) (ps : List Placement) :
    List (Placement × Item) :=
  ps.filterMap (fun p => (findItem items p.item_id).map (fun i => (p, i)))

/-- `calculate_retrieval_time(container, items, item_positions)`.
All divisions here are *numpy-scalar* divisions (`np.float64`
numerators): a zero denominator yields `±inf` or `nan` with a
`RuntimeWarning`, never an exception. The subsequent
`max(0, min(score, 100))` collapses those values as follows
(verified against CPython `min`/`max` semantics, which keep the first
argument when a `nan` comparison is false):
* `num/0 = +inf` (num > 0) or `nan` (num = 0) → final score `0`;
  `num/0 = -inf` (num < 0) → `1 - (-inf) = +inf` → final score `100`;
* likewise for `wavg / max_distance` when `max_distance = 0`.
The function is total; `sq` models `np.sqrt`. -/
def calculate_retrieval_time (sq : ℚ → ℚ) (c : Container)
    (items : List Item) (ps : List Placement) : ℚ :=
  let max_distance := sq (c.width ^ 2 + c.height ^ 2 + c.depth ^ 2)
  let matched := matchedPairs items ps
  if matched.isEmpty then 100
  else
    let den : ℤ := (matched.map (fun m => m.2.priority)).sum
    let num : ℚ := (matched.map (fun m =>
      sq (m.1.position_x ^ 2 + m.1.position_y ^ 2 + m.1.position_z ^ 2)
        * (m.2.priority : ℚ))).sum
    if den = 0 then (if num < 0 then 100 else 0)
    else
      let wavg := num / (den : ℚ)
      if max_distance = 0 then (if wavg < 0 then 100 else 0)
      else max 0 (min (100 * (1 - wavg / max_distance)) 100)

/-- `overall_score = space*0.4 + accessibility*0.3 + retrieval*0.3`
(line 76 of the endpoint; the float literals are the exact weights). -/
def overall_score (se acc rt : ℚ) : ℚ :=
  se * (2/5) + acc * (3/10) + rt * (3/10)

/-! ### The orchestrator `optimize_bin_packing` -/

/-- Faults surfaced inside the endpoint's `try` block and re-raised as
a 500 response: the budget `HTTPException` (carrying the measured
elapsed time) or a Python exception from planning/scoring. -/
inductive InnerFault where
  | budgetExceeded (elapsed : ℚ)
  | pyFault (e : PyErr)
deriving DecidableEq, Repr

/-- Failure modes of the whole endpoint call. -/
inductive OrchError where
  | notFoundContainer
  | notFoundItems
  | internal (f : InnerFault)
deriving DecidableEq, Repr

/-- The persisted stowage-plan record (scores plus the placement list
that goes into `visualization_data` and the item-position updates). -/
structure PlanRecord where
  space_efficiency_score : ℚ
  accessibility_score : ℚ
  retrieval_time_score : ℚ
  overall : ℚ
  placements : List Placement
deriving DecidableEq, Repr

/-- `optimize_bin_packing(container_id, db)`. Wall-clock measurement is
modelled by two oracle inputs: `planElapsed` is the value of
`time.time() - start_time` sampled immediately after
`optimize_cargo_placement` returns, and `scoreElapsed` is the further
time the scoring calls take. The source samples the clock only once,
right after planning, and compares against the 1-second budget *before*
any scorer runs, so `scoreElapsed` is never consulted. An error result
means the call raised before `db.add`/`db.commit` (or rolled back), so
no plan is persisted; a plan exists only in the `.ok` branch. -/
def optimize_bin_packing (c? : Option Container) (items : List Item)
    (sq : ℚ → ℚ) (planElapsed scoreElapsed : ℚ) :
    Except OrchError PlanRecord :=
  match c? with
  | none => .error .notFoundContainer
  | some container =>
    if items.isEmpty then .error .notFoundItems
    else
      match optimize_cargo_placement container items with
      | .error e => .error (.internal (.pyFault e))
      | .ok item_positions =>
        let optimization_time := planElapsed
        if optimization_time > 1 then
          .error (.internal (.budgetExceeded optimization_time))
        else
          match calculate_space_efficiency container items item_positions with
          | .error e => .error (.internal (.pyFault e))
          | .ok se =>
            match calculate_accessibility container items item_positions with
            | .error e => .error (.internal (.pyFault e))
            | .ok acc =>
              let rt := calculate_retrieval_time sq container items item_positions
              .ok { space_efficiency_score := se,
                    accessibility_score := acc,
                    retrieval_time_score := rt,
                    overall := overall_score se acc rt,
                    placements := item_positions }

/-- Orchestrator following the spec's words (§4.4), for comparison with
the code's `optimize_bin_packing`: the elapsed time covers both the
Planning and the Scoring work, and the budget comparison happens after
scoring completes. Same guards and same oracle inputs as the code
version, so any divergence isolates the budget-measurement difference. -/
def orchestrator_spec (c? : Option Container) (items : List Item)
    (sq : ℚ → ℚ) (planElapsed scoreElapsed : ℚ) :
    Except OrchError PlanRecord :=
  match c? with
  | none => .error .notFoundContainer
  | some container =>
    if items.isEmpty then .error .notFoundItems
    else
      match optimize_cargo_placement container items with
      | .error e => .error (.internal (.pyFault e))
      | .ok item_positions =>
        match calculate_space_efficiency container items item_positions with
        | .error e => .error (.internal (.pyFault e))
        | .ok se =>
          match calculate_accessibility container items item_positions with
          | .error e => .error (.internal (.pyFault e))
          | .ok acc =>
            let rt := calculate_retrieval_time sq container items item_positions
            let elapsed := planElapsed + scoreElapsed
            if elapsed > 1 then
              .error (.internal (.budgetExceeded elapsed))
            else
              .ok { space_efficiency_score := se,
                    accessibility_score := acc,
                    retrieval_time_score := rt,
                    overall := overall_score se acc rt,
                    placements := item_positions }

/-! ### Relations used in theorem statements -/

/-- Emission-order relation of claim C10: `position_z` never decreases,
and between placements sharing a `position_z`, `position_y` never
decreases. -/
def zyOrdered (p q : Placement) : Prop :=
  p.position_z ≤ q.position_z ∧
  (p.position_z = q.position_z → p.position_y ≤ q.position_y)

/-! ### Concrete fixtures -/

/-- The 10×10×10 container of the spec's concrete scenario. -/
def cube10 : Container := ⟨10, 10, 10⟩

def item1 : Item := { id := 1, width := 4, height := 4, depth := 4, priority := 5 }

def item2 : Item := { id := 2, width := 4, height := 4, depth := 4, priority := 5 }

def item3 : Item := { id := 3, width := 4, height := 4, depth := 4, priority := 1 }

/-- The planner's output on `cube10` and `[item1, item2, item3]`. -/
def placedC4 : List Placement :=
  [mkPlacement 1 0 0 0, mkPlacement 2 4 0 0, mkPlacement 3 0 4 0]

/-- A full-width row-opening item of height 8. -/
def rowA : Item := { id := 1, width := 10, height := 8, depth := 1, priority := 2 }

def rowB : Item := { id := 2, width := 4, height := 4, depth := 1, priority := 1 }

/-- An item taller than `cube10`. -/
def tallItem : Item := { id := 9, width := 4, height := 20, depth := 4, priority := 1 }

/-- Equal-priority pair mixing a present and an absent expiry date. -/
def expiryItem : Item :=
  { id := 1, width := 1, height := 1, depth := 1, priority := 5,
    expiry_date := some 100 }

def noExpiryItem : Item := { id := 2, width := 1, height := 1, depth := 1, priority := 5 }

def tinyBox : Container := ⟨1, 1, 1⟩

/-- An item that does not fit in `tinyBox` on any axis. -/
def bigItem : Item := { id := 7, width := 2, height := 2, depth := 2, priority := 1 }

/-- Descending-priority relation that the sorted order satisfies. -/
def prioGE (a b : Item) : Prop := b.priority ≤ a.priority

/-! ### Helper lemmas about the sort -/

theorem keyLt_true_le {a b : Item} (h : keyLt b a = .ok true) :
    a.priority ≤ b.priority := by
  unfold keyLt at h
  split_ifs at h with h1 h2
  · omega
  · simp at h
  · omega

theorem keyLt_false_le {a b : Item} (h : keyLt b a = .ok false) :
    b.priority ≤ a.priority := by
  unfold keyLt at h
  split_ifs at h with h1 h2
  · simp at h
  · omega
  · omega

theorem finsert_mem {a : Item} {l l' : List Item}
    (h : finsert a l = .ok l') : ∀ x ∈ l', x = a ∨ x ∈ l := by
  induction l generalizing l' with
  | nil =>
    unfold finsert at h
    cases h
    intro x hx
    simp at hx
    exact Or.inl hx
  | cons b t ih =>
    unfold finsert at h
    cases hk : keyLt b a with
    | error e => rw [hk] at h; cases h
    | ok v =>
      rw [hk] at h
      cases v with
      | true =>
        cases hr : finsert a t with
        | error e => rw [hr] at h; cases h
        | ok r =>
          rw [hr] at h
          cases h
          intro x hx
          rcases List.mem_cons.1 hx with hxb | hxr
          · exact Or.inr (by simp [hxb])
          · rcases ih hr x hxr with h1 | h1
            · exact Or.inl h1
            · exact Or.inr (by simp [h1])
      | false =>
        cases h
        intro x hx
        rcases List.mem_cons.1 hx with hxa | hx2
        · exact Or.inl hxa
        · exact Or.inr hx2

theorem fsort_mem {l l' : List Item} (h : fsort l = .ok l') :
    ∀ x ∈ l', x ∈ l := by
  induction l generalizing l' with
  | nil => unfold fsort at h; cases h; intro x hx; cases hx
  | cons a t ih =>
    unfold fsort at h
    cases hr : fsort t with
    | error e => rw [hr] at h; cases h
    | ok r =>
      rw [hr] at h
      intro x hx
      rcases finsert_mem h x hx with h1 | h1
      · simp [h1]
      · exact List.mem_cons_of_mem _ (ih hr x h1)

theorem finsert_pairwise {a : Item} {l l' : List Item}
    (hp : l.Pairwise prioGE) (h : finsert a l = .ok l') :
    l'.Pairwise prioGE := by
  induction l generalizing l' with
  | nil =>
    unfold finsert at h
    cases h
    exact List.pairwise_singleton _ _
  | cons b t ih =>
    unfold finsert at h
    cases hk : keyLt b a with
    | error e => rw [hk] at h; cases h
    | ok v =>
      rw [hk] at h
      rcases List.pairwise_cons.1 hp with ⟨hbt, hpt⟩
      cases v with
      | true =>
        cases hr : finsert a t with
        | error e => rw [hr] at h; cases h
        | ok r =>
          rw [hr] at h
          cases h
          refine List.pairwise_cons.2 ⟨?_, ih hpt hr⟩
          intro x hx
          rcases finsert_mem hr x hx with h1 | h1
          · rw [h1]; exact keyLt_true_le hk
          · exact hbt x h1
      | false =>
        cases h
        refine List.pairwise_cons.2 ⟨?_, hp⟩
        intro x hx
        rcases List.mem_cons.1 hx with hxb | hx2
        · rw [hxb]; exact keyLt_false_le hk
        · exact le_trans (hbt x hx2) (keyLt_false_le hk)

theorem fsort_pairwise {l l' : List Item} (h : fsort l = .ok l') :
    l'.Pairwise prioGE := by
  induction l generalizing l' with
  | nil => unfold fsort at h; cases h; exact List.Pairwise.nil
  | cons a t ih =>
    unfold fsort at h
    cases hr : fsort t with
    | error e => rw [hr] at h; cases h
    | ok r => rw [hr] at h; exact finsert_pairwise (ih hr) h

/-! ### Helper lemmas about `pymax` and the trailing window -/

theorem le_foldl_max (l : List ℚ) :
    ∀ a x : ℚ, (x = a ∨ x ∈ l) → x ≤ l.foldl max a := by
  induction l with
  | nil =>
    intro a x hx
    rcases hx with h | h
    · exact le_of_eq h
    · cases h
  | cons h t ih =>
    intro a x hx
    show x ≤ t.foldl max (max a h)
    rcases hx with h1 | h1
    · exact le_trans (h1 ▸ le_max_left a h) (ih (max a h) _ (Or.inl rfl))
    · rcases List.mem_cons.1 h1 with h2 | h2
      · exact le_trans (h2 ▸ le_max_right a h) (ih (max a h) _ (Or.inl rfl))
      · exact ih (max a h) x (Or.inr h2)

theorem le_pymax_of_mem {l : List ℚ} {x : ℚ} (hx : x ∈ l) : x ≤ pymax l := by
  cases l with
  | nil => cases hx
  | cons h t =>
    rcases List.mem_cons.1 hx with h1 | h1
    · exact le_foldl_max t h x (Or.inl h1)
    · exact le_foldl_max t h x (Or.inr h1)

theorem pymax_nonneg {l : List ℚ} (h : ∀ x ∈ l, 0 ≤ x) : 0 ≤ pymax l := by
  cases l with
  | nil => exact le_refl 0
  | cons a t =>
    exact le_trans (h a (List.mem_cons_self a t))
      (le_foldl_max t a a (Or.inl rfl))

theorem windowMax_nonneg {k : Nat} {f : Item → ℚ} {items : List Item}
    {ps : List Placement} (h : ∀ i ∈ items, 0 ≤ f i) :
    0 ≤ windowMax k f items ps := by
  apply pymax_nonneg
  intro x hx
  rcases List.mem_map.1 hx with ⟨i, hi, rfl⟩
  exact h i (List.mem_of_mem_filter hi)

theorem le_windowMax {k : Nat} {f : Item → ℚ} {items : List Item}
    {ps : List Placement} {i : Item} (hi : i ∈ items)
    (hid : i.id ∈ lastIds k ps) : f i ≤ windowMax k f items ps := by
  apply le_pymax_of_mem
  exact List.mem_map.2 ⟨i, List.mem_filter.2 ⟨hi, by simpa using hid⟩, rfl⟩

theorem getLast?_mem_lastIds {ps : List Placement} {q : Placement}
    {k : Nat} (hk : 0 < k) (h : ps.getLast? = some q) :
    q.item_id ∈ lastIds k ps := by
  unfold lastIds
  have hh : ps.reverse.head? = some q := by
    rw [List.head?_reverse]; exact h
  cases hrev : ps.reverse with
  | nil => rw [hrev] at hh; cases hh
  | cons r t =>
    rw [hrev] at hh
    cases hh
    cases k with
    | zero => cases hk
    | succ m => simp [List.take_succ_cons]

/-! ### A generic invariant lemma for the greedy loop -/

theorem planLoop_inv (c : Container) (items : List Item)
    (P : PlanState → Prop) (l : List Item)
    (hstep : ∀ st it, it ∈ l → P st →
      ∀ st', step c items st it = some st' → P st') :
    ∀ st, P st → P (planLoop c items st l) := by
  induction l with
  | nil => intro st h; exact h
  | cons a t ih =>
    intro st h
    show P (planLoop c items st (a :: t))
    rw [planLoop]
    cases hs : step c items st a with
    | none => exact h
    | some st' =>
      exact ih (fun s i hi hP s' hs' =>
          hstep s i (List.mem_cons_of_mem _ hi) hP s' hs')
        st' (hstep st a (List.mem_cons_self a t) h st' hs)

/-- The loop processes a maximal prefix of the sorted list: it either
consumes everything or stops at the first item for which `step` fails,
emitting exactly one placement (carrying the item's id) per consumed
item. -/
theorem planLoop_take (c : Container) (items : List Item) :
    ∀ (l : List Item) (st : PlanState), ∃ n, n ≤ l.length ∧
      planLoop c items st l = planLoop c items st (l.take n) ∧
      (planLoop c items st (l.take n)).placed.map (·.item_id) =
        st.placed.map (·.item_id) ++ (l.take n).map (·.id) ∧
      ∀ hn : n < l.length,
        step c items (planLoop c items st (l.take n)) (l.get ⟨n, hn⟩) = none := by
  intro l
  induction l with
  | nil =>
    intro st
    exact ⟨0, le_refl 0, rfl, by simp [planLoop], fun hn => absurd hn (by simp)⟩
  | cons a t ih =>
    intro st
    cases hs : step c items st a with
    | none =>
      refine ⟨0, Nat.zero_le _, ?_, by simp [planLoop], ?_⟩
      · show planLoop c items st (a :: t) = planLoop c items st []
        simp only [planLoop, hs]
      · intro hn
        simpa [planLoop] using hs
    | some st' =>
      rcases ih st' with ⟨m, hm, heq, hmap, hfail⟩
      have hplaced : st'.placed.map (·.item_id) =
          st.placed.map (·.item_id) ++ [a.id] := by
        unfold step at hs
        split_ifs at hs <;> (cases hs; simp [mkPlacement])
      refine ⟨m + 1, by simpa using Nat.succ_le_succ hm, ?_, ?_, ?_⟩
      · show planLoop c items st (a :: t) =
          planLoop c items st (a :: t.take m)
        simp only [planLoop, hs]
        exact heq
      · show (planLoop c items st (a :: t.take m)).placed.map (·.item_id) =
          st.placed.map (·.item_id) ++ (a.id :: (t.take m).map (·.id))
        simp only [planLoop, hs]
        rw [hmap, hplaced]
        simp
      · intro hn
        have hn' : m < t.length := by simpa using hn
        show step c items (planLoop c items st (a :: t.take m))
          ((a :: t).get ⟨m + 1, hn⟩) = none
        simp only [planLoop, hs]
        simpa using hfail hn'

/-! ### Helper lemmas about the scorers -/

theorem findItem_mem {items : List Item} {w : ℤ} {i : Item}
    (h : findItem items w = some i) : i ∈ items :=
  List.mem_of_find?_eq_some h

theorem matchedPairs_snd {items : List Item} {ps : List Placement}
    {m : Placement × Item} (h : m ∈ matchedPairs items ps) :
    m.2 ∈ items := by
  rcases List.mem_filterMap.1 h with ⟨p, _, heq⟩
  rcases Option.map_eq_some'.1 heq with ⟨i, hfind, hm⟩
  rw [← hm]
  exact findItem_mem hfind

theorem vol_foldl_nonneg {items : List Item}
    (hext : ∀ i ∈ items, 0 ≤ i.width ∧ 0 ≤ i.height ∧ 0 ≤ i.depth) :
    ∀ (ps : List Placement) (a : ℚ), 0 ≤ a →
    0 ≤ ps.foldl (fun acc p =>
      match findItem items p.item_id with
      | some i => acc + i.width * i.height * i.depth
      | none => acc) a := by
  intro ps
  induction ps with
  | nil => intro a ha; simpa using ha
  | cons p t ih =>
    intro a ha
    simp only [List.foldl_cons]
    cases hf : findItem items p.item_id with
    | none => exact ih a ha
    | some i =>
      rcases hext i (findItem_mem hf) with ⟨hw, hh, hd⟩
      exact ih _ (add_nonneg ha (mul_nonneg (mul_nonneg hw hh) hd))

theorem space_efficiency_bounds {c : Container} {items : List Item}
    {ps : List Placement} {a : ℚ}
    (hext : ∀ i ∈ items, 0 ≤ i.width ∧ 0 ≤ i.height ∧ 0 ≤ i.depth)
    (h : calculate_space_efficiency c items ps = .ok a) :
    0 ≤ a ∧ a ≤ 100 := by
  have hiv : 0 ≤ ps.foldl (fun acc p =>
      match findItem items p.item_id with
      | some i => acc + i.width * i.height * i.depth
      | none => acc) 0 := vol_foldl_nonneg hext ps 0 (le_refl 0)
  simp only [calculate_space_efficiency, pydiv] at h
  split_ifs at h with h1 h2
  all_goals first
    | (have ha := Except.ok.inj h
       subst ha)
    | cases h
  all_goals first
    | exact ⟨le_min (mul_nonneg (div_nonneg hiv (le_of_lt h1))
        (by norm_num)) (by norm_num), min_le_right _ _⟩
    | norm_num

theorem accessibility_bounds {c : Container} {items : List Item}
    {ps : List Placement} {b : ℚ}
    (h : calculate_accessibility c items ps = .ok b) :
    0 ≤ b ∧ b ≤ 100 := by
  simp only [calculate_accessibility, pydiv] at h
  split_ifs at h with h1 h2
  all_goals first
    | (have hb := Except.ok.inj h
       subst hb)
    | cases h
  all_goals first
    | (have hn : (0 : ℚ) < (ps.length : ℚ) := by
         exact_mod_cast Nat.pos_of_ne_zero h1
       have hk : ((ps.filter (fun p => isAccessible c items p)).length : ℚ) ≤
           (ps.length : ℚ) := by
         exact_mod_cast List.length_filter_le _ ps
       have hk0 : (0 : ℚ) ≤
           ((ps.filter (fun p => isAccessible c items p)).length : ℚ) := by
         positivity
       have hdiv1 : ((ps.filter (fun p => isAccessible c items p)).length : ℚ) /
           (ps.length : ℚ) ≤ 1 := (div_le_one hn).2 hk
       have hdiv0 : (0 : ℚ) ≤
           ((ps.filter (fun p => isAccessible c items p)).length : ℚ) /
           (ps.length : ℚ) := div_nonneg hk0 (le_of_lt hn)
       constructor
       · linarith
       · linarith)
    | norm_num

theorem retrieval_time_bounds (sq : ℚ → ℚ) (c : Container)
    (items : List Item) (ps : List Placement) :
    0 ≤ calculate_retrieval_time sq c items ps ∧
    calculate_retrieval_time sq c items ps ≤ 100 := by
  simp only [calculate_retrieval_time]
  split_ifs <;> constructor <;> norm_num

/-! ### Claim C4 -/

/-- C4: on container 10×10×10 with items 1,2 (4×4×4, priority 5) and
3 (4×4×4, priority 1), the planner places item 1 at (0,0,0), item 2 at
(4,0,0) and item 3 at (0,4,0), all with zero rotation, and the space
efficiency of that placement set is 19.2 (= 96/5). -/
theorem c4_concrete_scenario :
    optimize_cargo_placement cube10 [item1, item2, item3] =
      .ok [mkPlacement 1 0 0 0, mkPlacement 2 4 0 0, mkPlacement 3 0 4 0] ∧
    calculate_space_efficiency cube10 [item1, item2, item3]
      [mkPlacement 1 0 0 0, mkPlacement 2 4 0 0, mkPlacement 3 0 4 0] =
      .ok (96 / 5) := by
  with_unfolding_all decide

/-! ### Claim C5 -/

/-- C5 (code bug): the claim says the planner never raises, but on two
equal-priority items where one carries an expiry timestamp and the
other does not, the sort key compares a `datetime` against
`float('inf')` and `sorted` raises `TypeError`; the embedded planner
evaluates to that error on the failing input. -/
theorem c5_planner_raises_on_mixed_expiry :
    optimize_cargo_placement cube10 [expiryItem, noExpiryItem] =
      .error .typeError := by
  with_unfolding_all decide

/-! ### Claim C1 -/

/-- C1 (counterexample): two concrete runs in which an emitted
placement's box does not lie within the container. With `rowA` (10 wide,
8 high) then `rowB` (4 wide, 4 high) in `cube10`, the next-row branch
advances y to 8 and places `rowB` at (0,8,0) although 8 + 4 > 10; with
the single 20-high `tallItem`, the same-row branch places it at (0,0,0)
although 0 + 20 > 10. -/
theorem c1_containment_counterexample :
    (optimize_cargo_placement cube10 [rowA, rowB] =
      .ok [mkPlacement 1 0 0 0, mkPlacement 2 0 8 0] ∧
     (mkPlacement 2 0 8 0).position_y + rowB.height > cube10.height) ∧
    (optimize_cargo_placement cube10 [tallItem] = .ok [mkPlacement 9 0 0 0] ∧
     (mkPlacement 9 0 0 0).position_y + tallItem.height > cube10.height) := by
  with_unfolding_all decide

/-! ### Claim C3 -/

/-- C3 (counterexample): with planning elapsed 1/2 s and scoring
elapsed 1 s, the combined Planning+Scoring time 3/2 s exceeds the
1-second budget, and an orchestrator following the spec's words fails
with `BudgetExceeded 3/2`; the code's orchestrator succeeds, because it
samples the clock immediately after planning and compares against the
budget before scoring, so the measured window never covers Scoring. -/
theorem c3_budget_counterexample :
    (optimize_bin_packing (some cube10) [item1] (fun q => q) (1/2) 1).isOk = true ∧
    orchestrator_spec (some cube10) [item1] (fun q => q) (1/2) 1 =
      .error (.internal (.budgetExceeded (3/2))) ∧
    (1 : ℚ) < 1/2 + 1 := by
  with_unfolding_all decide

/-! ### Claim C2 -/

/-- C2: the three sub-scores are total on every input — the guarded
Python divisions never reach a zero denominator, the retrieval-time
divisions are numpy divisions that cannot raise (modelled by the total
function `calculate_retrieval_time`, including the all-zero-priority
case, which resolves to a defined value), and the degenerate inputs
resolve to the documented defaults (zero placements → accessibility and
retrieval 100; zero-volume container → space efficiency 0). The overall
score `overall_score` is a total function of the three values. -/
theorem c2_scorers_total (sq : ℚ → ℚ) (c : Container) (items : List Item)
    (ps : List Placement) :
    (calculate_space_efficiency c items ps).isOk = true ∧
    (calculate_accessibility c items ps).isOk = true ∧
    (c.width * c.height * c.depth = 0 →
      calculate_space_efficiency c items ps = .ok 0) ∧
    (ps = [] → calculate_accessibility c items ps = .ok 100 ∧
      calculate_retrieval_time sq c items ps = 100) ∧
    ((∀ i ∈ items, i.priority = 0) →
      calculate_retrieval_time sq c items ps = 0 ∨
      calculate_retrieval_time sq c items ps = 100) := by
  refine ⟨?_, ?_, ?_, ?_, ?_⟩
  · simp only [calculate_space_efficiency, pydiv]
    split_ifs with h1 h2
    · exact absurd h2 (ne_of_gt h1)
    · rfl
    · rfl
  · simp only [calculate_accessibility, pydiv]
    split_ifs with h1 h2
    · rfl
    · exact absurd (Nat.cast_eq_zero.1 h2) h1
    · rfl
  · intro h0
    have hneg : ¬ (c.width * c.height * c.depth > 0) := by
      rw [h0]
      exact lt_irrefl 0
    simp [calculate_space_efficiency, hneg]
  · intro hps
    subst hps
    exact ⟨by simp [calculate_accessibility],
      by simp [calculate_retrieval_time, matchedPairs]⟩
  · intro hzero
    by_cases hm : (matchedPairs items ps).isEmpty
    · right
      simp [calculate_retrieval_time, hm]
    · left
      have hden : ((matchedPairs items ps).map (fun m => m.2.priority)).sum = 0 := by
        apply List.sum_eq_zero
        intro x hx
        rcases List.mem_map.1 hx with ⟨m, hmem, rfl⟩
        exact hzero m.2 (matchedPairs_snd hmem)
      have hnum : ((matchedPairs items ps).map (fun m =>
          sq (m.1.position_x ^ 2 + m.1.position_y ^ 2 + m.1.position_z ^ 2) *
          (m.2.priority : ℚ))).sum = 0 := by
        apply List.sum_eq_zero
        intro x hx
        rcases List.mem_map.1 hx with ⟨m, hmem, rfl⟩
        rw [hzero m.2 (matchedPairs_snd hmem)]
        simp
      simp only [calculate_retrieval_time]
      rw [if_neg (by simpa using hm), if_pos hden, hnum]
      norm_num

/-- Witness for C2 at a zero-volume container with no placements. -/
theorem c2_scorers_total_witness :
    (calculate_space_efficiency ⟨0, 0, 0⟩ [] []).isOk = true ∧
    calculate_space_efficiency ⟨0, 0, 0⟩ [] [] = .ok 0 ∧
    calculate_accessibility ⟨0, 0, 0⟩ [] [] = .ok 100 ∧
    calculate_retrieval_time (fun q => q) ⟨0, 0, 0⟩ [] [] = 100 := by
  obtain ⟨h1, _, h3, h4, _⟩ := c2_scorers_total (fun q => q) ⟨0, 0, 0⟩ [] []
  exact ⟨h1, h3 (by with_unfolding_all decide), (h4 rfl).1, (h4 rfl).2⟩

/-! ### Claim C6 -/

/-- C6: whenever the scorers return, each sub-score and the overall
weighted sum 0.4·space + 0.3·accessibility + 0.3·retrieval lie in
[0, 100], for non-negative item extents. -/
theorem c6_score_bounds (sq : ℚ → ℚ) (c : Container) (items : List Item)
    (ps : List Placement) (a b : ℚ)
    (hext : ∀ i ∈ items, 0 ≤ i.width ∧ 0 ≤ i.height ∧ 0 ≤ i.depth)
    (hsp : calculate_space_efficiency c items ps = .ok a)
    (hac : calculate_accessibility c items ps = .ok b) :
    (0 ≤ a ∧ a ≤ 100) ∧ (0 ≤ b ∧ b ≤ 100) ∧
    (0 ≤ calculate_retrieval_time sq c items ps ∧
     calculate_retrieval_time sq c items ps ≤ 100) ∧
    (0 ≤ overall_score a b (calculate_retrieval_time sq c items ps) ∧
     overall_score a b (calculate_retrieval_time sq c items ps) ≤ 100) := by
  have h1 := space_efficiency_bounds hext hsp
  have h2 := accessibility_bounds hac
  have h3 := retrieval_time_bounds sq c items ps
  refine ⟨h1, h2, h3, ?_, ?_⟩
  · unfold overall_score
    rcases h1 with ⟨h1a, _⟩
    rcases h2 with ⟨h2a, _⟩
    rcases h3 with ⟨h3a, _⟩
    nlinarith
  · unfold overall_score
    rcases h1 with ⟨_, h1b⟩
    rcases h2 with ⟨_, h2b⟩
    rcases h3 with ⟨_, h3b⟩
    nlinarith

/-- Witness for C6 on the concrete scenario of C4 (space efficiency
96/5, accessibility 100). -/
theorem c6_score_bounds_witness :
    (0 ≤ (96 / 5 : ℚ) ∧ (96 / 5 : ℚ) ≤ 100) ∧
    ((0 : ℚ) ≤ 100 ∧ (100 : ℚ) ≤ 100) ∧
    (0 ≤ calculate_retrieval_time (fun q => q) cube10 [item1, item2, item3] placedC4 ∧
     calculate_retrieval_time (fun q => q) cube10 [item1, item2, item3] placedC4 ≤ 100) ∧
    (0 ≤ overall_score (96 / 5) 100
       (calculate_retrieval_time (fun q => q) cube10 [item1, item2, item3] placedC4) ∧
     overall_score (96 / 5) 100
       (calculate_retrieval_time (fun q => q) cube10 [item1, item2, item3] placedC4) ≤ 100) :=
  c6_score_bounds (fun q => q) cube10 [item1, item2, item3] placedC4 (96 / 5) 100
    (by with_unfolding_all decide)
    (by with_unfolding_all decide)
    (by with_unfolding_all decide)

/-- C3 (amended): the orchestrator measures elapsed wall-clock time
covering only the Planning work and performs the budget comparison
before scoring; when that measured time exceeds the 1-second budget it
fails with an error carrying the measured elapsed time (> budget),
persists no plan, and the outcome is independent of how long scoring
would take. -/
theorem c3_budget_amended (c : Container) (items : List Item)
    (sq : ℚ → ℚ) (pe se : ℚ) (ps : List Placement)
    (hne : items ≠ [])
    (hplan : optimize_cargo_placement c items = .ok ps)
    (hpe : 1 < pe) :
    optimize_bin_packing (some c) items sq pe se =
      .error (.internal (.budgetExceeded pe)) ∧
    (∀ pr : PlanRecord, optimize_bin_packing (some c) items sq pe se ≠ .ok pr) ∧
    (∀ se' : ℚ, optimize_bin_packing (some c) items sq pe se' =
      optimize_bin_packing (some c) items sq pe se) := by
  have hie : items.isEmpty = false := by
    cases items with
    | nil => exact absurd rfl hne
    | cons a t => rfl
  have hmain : ∀ u : ℚ, optimize_bin_packing (some c) items sq pe u =
      .error (.internal (.budgetExceeded pe)) := by
    intro u
    simp [optimize_bin_packing, hie, hplan, hpe]
  refine ⟨hmain se, ?_, ?_⟩
  · intro pr hpr
    rw [hmain se] at hpr
    cases hpr
  · intro se'
    rw [hmain se', hmain se]

/-- Witness for the amended C3: planning elapsed 2 s on a successful
plan fails the call with `BudgetExceeded 2`. -/
theorem c3_budget_amended_witness :
    ([item1] : List Item) ≠ [] ∧ (1 : ℚ) < 2 ∧
    optimize_bin_packing (some cube10) [item1] (fun q => q) 2 0 =
      .error (.internal (.budgetExceeded 2)) :=
  ⟨by simp, by norm_num,
    (c3_budget_amended cube10 [item1] (fun q => q) 2 0 [mkPlacement 1 0 0 0]
      (by simp) (by with_unfolding_all decide) (by norm_num)).1⟩

/-! ### Claim C8 -/

/-- C8: the planner's output comes from a prefix of the sorted item
list: there is an `n` such that the loop's whole run equals its run on
the first `n` sorted items, the emitted placements carry exactly the
ids of those `n` items (in order), and, if any item remains, the first
remaining item fails all three placement branches (`step` returns
`none`) at the state reached — so no item after the first unfittable
one is ever placed. -/
theorem c8_stops_at_first_unfittable (c : Container) (items : List Item)
    (ps : List Placement)
    (h : optimize_cargo_placement c items = .ok ps) :
    ∃ l n, fsort items = .ok l ∧ n ≤ l.length ∧
      planLoop c items ⟨0, 0, 0, []⟩ l =
        planLoop c items ⟨0, 0, 0, []⟩ (l.take n) ∧
      ps.map (·.item_id) = (l.take n).map (·.id) ∧
      ∀ hn : n < l.length,
        step c items (planLoop c items ⟨0, 0, 0, []⟩ (l.take n))
          (l.get ⟨n, hn⟩) = none := by
  unfold optimize_cargo_placement at h
  cases hs : fsort items with
  | error e => rw [hs] at h; cases h
  | ok l =>
    rw [hs] at h
    have hps : ps = (planLoop c items ⟨0, 0, 0, []⟩ l).placed :=
      (Except.ok.inj h).symm
    rcases planLoop_take c items l ⟨0, 0, 0, []⟩ with ⟨n, hn, heq, hmap, hfail⟩
    refine ⟨l, n, rfl, hn, heq, ?_, hfail⟩
    rw [hps, heq]
    simpa using hmap

/-- Witness for C8: in a 1×1×1 container a 2×2×2 item fails every
branch immediately, so the processed prefix is empty. -/
theorem c8_stops_witness :
    ∃ l n, fsort [bigItem] = .ok l ∧ n ≤ l.length ∧
      planLoop tinyBox [bigItem] ⟨0, 0, 0, []⟩ l =
        planLoop tinyBox [bigItem] ⟨0, 0, 0, []⟩ (l.take n) ∧
      ([] : List Placement).map (·.item_id) = (l.take n).map (·.id) ∧
      ∀ hn : n < l.length,
        step tinyBox [bigItem]
          (planLoop tinyBox [bigItem] ⟨0, 0, 0, []⟩ (l.take n))
          (l.get ⟨n, hn⟩) = none :=
  c8_stops_at_first_unfittable tinyBox [bigItem] []
    (by with_unfolding_all decide)

/-! ### Claim C7 -/

/-- C7: among items with pairwise-distinct ids (database primary keys),
any two items that both appear in the planner's output occur in
strictly-descending-priority order: the strictly-higher-priority item
occupies an earlier index of the output placement list. -/
theorem c7_priority_order (c : Container) (items : List Item)
    (ps : List Placement)
    (hids : (items.map (·.id)).Nodup)
    (h : optimize_cargo_placement c items = .ok ps) :
    ∀ A ∈ items, ∀ B ∈ items, B.priority < A.priority →
      A.id ∈ ps.map (·.item_id) → B.id ∈ ps.map (·.item_id) →
      ∃ (i j : ℕ) (hi : i < ps.length) (hj : j < ps.length),
        i < j ∧ (ps.get ⟨i, hi⟩).item_id = A.id ∧
          (ps.get ⟨j, hj⟩).item_id = B.id := by
  intro A hA B hB hAB hAin hBin
  unfold optimize_cargo_placement at h
  cases hs : fsort items with
  | error e => rw [hs] at h; cases h
  | ok l =>
    rw [hs] at h
    have hps : ps = (planLoop c items ⟨0, 0, 0, []⟩ l).placed :=
      (Except.ok.inj h).symm
    rcases planLoop_take c items l ⟨0, 0, 0, []⟩ with ⟨n, -, heq, hmap, -⟩
    have hmap' : ps.map (·.item_id) = (l.take n).map (·.id) := by
      rw [hps, heq]
      simpa using hmap
    have hpair := fsort_pairwise hs
    have hsub := fsort_mem hs
    have hAtake : A ∈ l.take n := by
      rw [hmap'] at hAin
      rcases List.mem_map.1 hAin with ⟨x, hx, hxid⟩
      have hxA : x = A :=
        List.inj_on_of_nodup_map hids (hsub x (List.mem_of_mem_take hx)) hA hxid
      rwa [← hxA]
    have hBtake : B ∈ l.take n := by
      rw [hmap'] at hBin
      rcases List.mem_map.1 hBin with ⟨x, hx, hxid⟩
      have hxB : x = B :=
        List.inj_on_of_nodup_map hids (hsub x (List.mem_of_mem_take hx)) hB hxid
      rwa [← hxB]
    rcases List.mem_iff_getElem.1 hAtake with ⟨i, hi1, hiA⟩
    rcases List.mem_iff_getElem.1 hBtake with ⟨j, hj1, hjB⟩
    have hil : i < l.length :=
      lt_of_lt_of_le hi1 (by rw [List.length_take]; exact Nat.min_le_right _ _)
    have hjl : j < l.length :=
      lt_of_lt_of_le hj1 (by rw [List.length_take]; exact Nat.min_le_right _ _)
    have hliA : l[i] = A := by rw [← List.getElem_take]; exact hiA
    have hljB : l[j] = B := by rw [← List.getElem_take]; exact hjB
    have hij : i < j := by
      rcases Nat.lt_trichotomy i j with h1 | h1 | h1
      · exact h1
      · exfalso
        subst h1
        have hABeq : A = B := by rw [← hliA, ← hljB]
        rw [hABeq] at hAB
        exact lt_irrefl _ hAB
      · exfalso
        have := (List.pairwise_iff_getElem.1 hpair) j i hjl hil h1
        rw [hliA, hljB] at this
        exact absurd hAB (not_lt.2 this)
    have hlen : ps.length = (l.take n).length := by
      have hc := congrArg List.length hmap'
      simpa using hc
    have hips : i < ps.length := by rw [hlen]; exact hi1
    have hjps : j < ps.length := by rw [hlen]; exact hj1
    have hgetid : ∀ (k : ℕ) (hk : k < ps.length) (hk1 : k < (l.take n).length),
        (ps.get ⟨k, hk⟩).item_id = ((l.take n)[k]).id := by
      intro k hk hk1
      have hc := congrArg (fun t => t[k]?) hmap'
      simp only [List.getElem?_map] at hc
      rw [List.getElem?_eq_getElem hk, List.getElem?_eq_getElem hk1] at hc
      simp only [Option.map_some'] at hc
      have := Option.some.inj hc
      simpa [List.get_eq_getElem] using this
    refine ⟨i, j, hips, hjps, hij, ?_, ?_⟩
    · rw [hgetid i hips hi1, hiA]
    · rw [hgetid j hjps hj1, hjB]

/-- Witness for C7: in `cube10` with `rowA` (priority 2) and `rowB`
(priority 1), both items are placed, and the higher-priority `rowA`
appears at the earlier output index. -/
theorem c7_priority_order_witness :
    ∃ (i j : ℕ)
      (hi : i < ([mkPlacement 1 0 0 0, mkPlacement 2 0 8 0] : List Placement).length)
      (hj : j < ([mkPlacement 1 0 0 0, mkPlacement 2 0 8 0] : List Placement).length),
      i < j ∧
      (([mkPlacement 1 0 0 0, mkPlacement 2 0 8 0] : List Placement).get ⟨i, hi⟩).item_id = rowA.id ∧
      (([mkPlacement 1 0 0 0, mkPlacement 2 0 8 0] : List Placement).get ⟨j, hj⟩).item_id = rowB.id :=
  c7_priority_order cube10 [rowA, rowB]
    [mkPlacement 1 0 0 0, mkPlacement 2 0 8 0]
    (by decide) (by with_unfolding_all decide)
    rowA (by decide) rowB (by decide) (by decide)
    (by decide) (by decide)

/-- C1 (amended): for non-negative item extents, every emitted
placement has non-negative coordinates, and its x-coordinate is either
`0` (next-row / next-layer branches) or satisfies
`position_x + item.width ≤ container.width` for the placed item
(same-row branch). Full containment on all three axes does not hold:
the next-row and next-layer branches test the bound at the pre-advance
cursor and then place at the advanced coordinate, and the same-row
branch checks no bound on y or z (see the counterexample). -/
theorem c1_containment_amended (c : Container) (items : List Item)
    (ps : List Placement)
    (hext : ∀ i ∈ items, 0 ≤ i.width ∧ 0 ≤ i.height ∧ 0 ≤ i.depth)
    (h : optimize_cargo_placement c items = .ok ps) :
    ∀ p ∈ ps, (0 ≤ p.position_x ∧ 0 ≤ p.position_y ∧ 0 ≤ p.position_z) ∧
      (p.position_x = 0 ∨ ∃ i ∈ items, i.id = p.item_id ∧
        p.position_x + i.width ≤ c.width) := by
  unfold optimize_cargo_placement at h
  cases hs : fsort items with
  | error e => rw [hs] at h; cases h
  | ok l =>
    rw [hs] at h
    have hps : ps = (planLoop c items ⟨0, 0, 0, []⟩ l).placed :=
      (Except.ok.inj h).symm
    have hsub := fsort_mem hs
    have hstep : ∀ st it, it ∈ l →
        ((0 ≤ st.x ∧ 0 ≤ st.y ∧ 0 ≤ st.z) ∧
         ∀ p ∈ st.placed,
           (0 ≤ p.position_x ∧ 0 ≤ p.position_y ∧ 0 ≤ p.position_z) ∧
           (p.position_x = 0 ∨ ∃ i ∈ items, i.id = p.item_id ∧
             p.position_x + i.width ≤ c.width)) →
        ∀ st', step c items st it = some st' →
        ((0 ≤ st'.x ∧ 0 ≤ st'.y ∧ 0 ≤ st'.z) ∧
         ∀ p ∈ st'.placed,
           (0 ≤ p.position_x ∧ 0 ≤ p.position_y ∧ 0 ≤ p.position_z) ∧
           (p.position_x = 0 ∨ ∃ i ∈ items, i.id = p.item_id ∧
             p.position_x + i.width ≤ c.width)) := by
      intro st it hit hP st' hs'
      have hit' : it ∈ items := hsub it hit
      rcases hext it hit' with ⟨hw, hh, hd⟩
      rcases hP with ⟨⟨hx, hy, hz⟩, hpl⟩
      unfold step at hs'
      split_ifs at hs' with h1 h2 h3
      · cases hs'
        refine ⟨⟨by simpa using add_nonneg hx hw, hy, hz⟩, ?_⟩
        intro p hp
        rcases List.mem_append.1 hp with hp1 | hp2
        · exact hpl p hp1
        · have hpe : p = mkPlacement it.id st.x st.y st.z := by
            simpa using hp2
          subst hpe
          exact ⟨⟨hx, hy, hz⟩, Or.inr ⟨it, hit', rfl, h1⟩⟩
      · cases hs'
        have hwm : 0 ≤ windowMax 5 (fun i => i.height) items st.placed :=
          windowMax_nonneg (fun i hi => (hext i hi).2.1)
        refine ⟨⟨hw, by simpa using add_nonneg hy hwm, hz⟩, ?_⟩
        intro p hp
        rcases List.mem_append.1 hp with hp1 | hp2
        · exact hpl p hp1
        · have hpe : p = mkPlacement it.id 0
              (st.y + windowMax 5 (fun i => i.height) items st.placed) st.z := by
            simpa using hp2
          subst hpe
          exact ⟨⟨le_refl 0, add_nonneg hy hwm, hz⟩, Or.inl rfl⟩
      · cases hs'
        have hwm : 0 ≤ windowMax 10 (fun i => i.depth) items st.placed :=
          windowMax_nonneg (fun i hi => (hext i hi).2.2)
        refine ⟨⟨hw, le_refl 0, by simpa using add_nonneg hz hwm⟩, ?_⟩
        intro p hp
        rcases List.mem_append.1 hp with hp1 | hp2
        · exact hpl p hp1
        · have hpe : p = mkPlacement it.id 0 0
              (st.z + windowMax 10 (fun i => i.depth) items st.placed) := by
            simpa using hp2
          subst hpe
          exact ⟨⟨le_refl 0, le_refl 0, add_nonneg hz hwm⟩, Or.inl rfl⟩
    have hfinal := planLoop_inv c items (fun st =>
        (0 ≤ st.x ∧ 0 ≤ st.y ∧ 0 ≤ st.z) ∧
        ∀ p ∈ st.placed,
          (0 ≤ p.position_x ∧ 0 ≤ p.position_y ∧ 0 ≤ p.position_z) ∧
          (p.position_x = 0 ∨ ∃ i ∈ items, i.id = p.item_id ∧
            p.position_x + i.width ≤ c.width)) l hstep ⟨0, 0, 0, []⟩
      ⟨⟨le_refl 0, le_refl 0, le_refl 0⟩, fun p hp => absurd hp (List.not_mem_nil p)⟩
    rw [hps]
    exact hfinal.2

/-- Witness for the amended C1: the same-row placement of item 2 at
(4,0,0) in the C4 scenario has non-negative coordinates and satisfies
the x-bound. -/
theorem c1_containment_amended_witness :
    (0 ≤ (mkPlacement 2 4 0 0).position_x ∧
     0 ≤ (mkPlacement 2 4 0 0).position_y ∧
     0 ≤ (mkPlacement 2 4 0 0).position_z) ∧
    ((mkPlacement 2 4 0 0).position_x = 0 ∨
     ∃ i ∈ [item1, item2, item3], i.id = (mkPlacement 2 4 0 0).item_id ∧
       (mkPlacement 2 4 0 0).position_x + i.width ≤ cube10.width) :=
  c1_containment_amended cube10 [item1, item2, item3] placedC4
    (by with_unfolding_all decide) (by with_unfolding_all decide)
    (mkPlacement 2 4 0 0) (by with_unfolding_all decide)

/-! ### Claim C10 -/

/-- C10: when every item has strictly positive extents, the emitted
placement sequence is monotone in emission order: `position_z` never
decreases, and consecutive placements sharing a `position_z` have
non-decreasing `position_y` — the cursor only ever advances. -/
theorem c10_layer_row_monotone (c : Container) (items : List Item)
    (ps : List Placement)
    (hext : ∀ i ∈ items, 0 < i.width ∧ 0 < i.height ∧ 0 < i.depth)
    (h : optimize_cargo_placement c items = .ok ps) :
    List.Chain' zyOrdered ps := by
  unfold optimize_cargo_placement at h
  cases hs : fsort items with
  | error e => rw [hs] at h; cases h
  | ok l =>
    rw [hs] at h
    have hps : ps = (planLoop c items ⟨0, 0, 0, []⟩ l).placed :=
      (Except.ok.inj h).symm
    have hsub := fsort_mem hs
    have hstep : ∀ st it, it ∈ l →
        (List.Chain' zyOrdered st.placed ∧
         (∀ p ∈ st.placed, ∃ i ∈ items, i.id = p.item_id) ∧
         ∀ q, st.placed.getLast? = some q →
           q.position_z ≤ st.z ∧
           (q.position_z = st.z → q.position_y ≤ st.y)) →
        ∀ st', step c items st it = some st' →
        (List.Chain' zyOrdered st'.placed ∧
         (∀ p ∈ st'.placed, ∃ i ∈ items, i.id = p.item_id) ∧
         ∀ q, st'.placed.getLast? = some q →
           q.position_z ≤ st'.z ∧
           (q.position_z = st'.z → q.position_y ≤ st'.y)) := by
      intro st it hit hP st' hs'
      have hit' : it ∈ items := hsub it hit
      rcases hP with ⟨hchain, hmem, hcur⟩
      unfold step at hs'
      split_ifs at hs' with h1 h2 h3
      · -- same row: place at the unchanged cursor
        cases hs'
        refine ⟨?_, ?_, ?_⟩
        · refine List.chain'_append.2 ⟨hchain, List.chain'_singleton _, ?_⟩
          intro x hx y hy
          have hyP : mkPlacement it.id st.x st.y st.z = y := by simpa using hy
          subst hyP
          rcases hcur x hx with ⟨hxz, hxy⟩
          exact ⟨hxz, fun heq => hxy heq⟩
        · intro p hp
          rcases List.mem_append.1 hp with hp1 | hp2
          · exact hmem p hp1
          · have hpe : p = mkPlacement it.id st.x st.y st.z := by simpa using hp2
            subst hpe
            exact ⟨it, hit', rfl⟩
        · intro q hq
          rw [List.getLast?_concat] at hq
          have hqe : mkPlacement it.id st.x st.y st.z = q := Option.some.inj hq
          rw [← hqe]
          exact ⟨le_refl _, fun _ => le_refl _⟩
      · -- next row: y advances by a non-negative window maximum
        cases hs'
        have hwm : 0 ≤ windowMax 5 (fun i => i.height) items st.placed :=
          windowMax_nonneg (fun i hi => le_of_lt (hext i hi).2.1)
        refine ⟨?_, ?_, ?_⟩
        · refine List.chain'_append.2 ⟨hchain, List.chain'_singleton _, ?_⟩
          intro x hx y hy
          have hyP : mkPlacement it.id 0
              (st.y + windowMax 5 (fun i => i.height) items st.placed) st.z = y := by
            simpa using hy
          subst hyP
          rcases hcur x hx with ⟨hxz, hxy⟩
          refine ⟨hxz, fun heq => ?_⟩
          have := hxy heq
          show x.position_y ≤ st.y + windowMax 5 (fun i => i.height) items st.placed
          linarith
        · intro p hp
          rcases List.mem_append.1 hp with hp1 | hp2
          · exact hmem p hp1
          · have hpe : p = mkPlacement it.id 0
                (st.y + windowMax 5 (fun i => i.height) items st.placed) st.z := by
              simpa using hp2
            subst hpe
            exact ⟨it, hit', rfl⟩
        · intro q hq
          rw [List.getLast?_concat] at hq
          have hqe : mkPlacement it.id 0
              (st.y + windowMax 5 (fun i => i.height) items st.placed) st.z = q :=
            Option.some.inj hq
          rw [← hqe]
          exact ⟨le_refl _, fun _ => le_refl _⟩
      · -- next layer: z advances, strictly so when anything was placed
        cases hs'
        have hwm : 0 ≤ windowMax 10 (fun i => i.depth) items st.placed :=
          windowMax_nonneg (fun i hi => le_of_lt (hext i hi).2.2)
        have hstrict : ∀ q, st.placed.getLast? = some q →
            st.z < st.z + windowMax 10 (fun i => i.depth) items st.placed := by
          intro q hq
          rcases hmem q (List.mem_of_getLast?_eq_some hq) with ⟨i, hi, hiid⟩
          have hqid : q.item_id ∈ lastIds 10 st.placed :=
            getLast?_mem_lastIds (by norm_num) hq
          have hle : i.depth ≤ windowMax 10 (fun i => i.depth) items st.placed :=
            le_windowMax hi (by rw [hiid]; exact hqid)
          have hdep : 0 < i.depth := (hext i hi).2.2
          linarith
        refine ⟨?_, ?_, ?_⟩
        · refine List.chain'_append.2 ⟨hchain, List.chain'_singleton _, ?_⟩
          intro x hx y hy
          have hyP : mkPlacement it.id 0 0
              (st.z + windowMax 10 (fun i => i.depth) items st.placed) = y := by
            simpa using hy
          subst hyP
          rcases hcur x hx with ⟨hxz, -⟩
          have hlt := hstrict x hx
          refine ⟨?_, fun heq => ?_⟩
          · show x.position_z ≤ st.z + windowMax 10 (fun i => i.depth) items st.placed
            linarith
          · exfalso
            have heq' : x.position_z =
                st.z + windowMax 10 (fun i => i.depth) items st.placed := heq
            linarith
        · intro p hp
          rcases List.mem_append.1 hp with hp1 | hp2
          · exact hmem p hp1
          · have hpe : p = mkPlacement it.id 0 0
                (st.z + windowMax 10 (fun i => i.depth) items st.placed) := by
              simpa using hp2
            subst hpe
            exact ⟨it, hit', rfl⟩
        · intro q hq
          rw [List.getLast?_concat] at hq
          have hqe : mkPlacement it.id 0 0
              (st.z + windowMax 10 (fun i => i.depth) items st.placed) = q :=
            Option.some.inj hq
          rw [← hqe]
          exact ⟨le_refl _, fun _ => le_refl _⟩
    have hfinal := planLoop_inv c items (fun st =>
        List.Chain' zyOrdered st.placed ∧
        (∀ p ∈ st.placed, ∃ i ∈ items, i.id = p.item_id) ∧
        ∀ q, st.placed.getLast? = some q →
          q.position_z ≤ st.z ∧
          (q.position_z = st.z → q.position_y ≤ st.y)) l hstep ⟨0, 0, 0, []⟩
      ⟨List.chain'_nil, fun p hp => absurd hp (List.not_mem_nil p),
        fun q hq => by cases hq⟩
    rw [hps]
    exact hfinal.1

/-- Witness for C10 on the C4 scenario: the output's z-coordinates are
constant and, within that layer, the y-coordinates never decrease. -/
theorem c10_layer_row_monotone_witness : List.Chain' zyOrdered placedC4 :=
  c10_layer_row_monotone cube10 [item1, item2, item3] placedC4
    (by with_unfolding_all decide) (by with_unfolding_all decide)

/-! ### Claim C9 -/

/-- C9: a placement whose `item_id` matches no item leaves the space
efficiency and retrieval time unchanged (it contributes no volume and
no distance), but accessibility still counts it in the total-placements
denominator, with the far-face test evaluated at looked-up extent `0`;
consequently, when such a dangling placement fails the boundary test it
weakly lowers the accessibility score, strictly so whenever the
previous score was positive. -/
theorem c9_dangling_id (sq : ℚ → ℚ) (c : Container) (items : List Item)
    (ps : List Placement) (p : Placement)
    (hfind : findItem items p.item_id = none) :
    calculate_space_efficiency c items (ps ++ [p]) =
      calculate_space_efficiency c items ps ∧
    calculate_retrieval_time sq c items (ps ++ [p]) =
      calculate_retrieval_time sq c items ps ∧
    isAccessible c items p =
      (decide (p.position_x = 0) || decide (p.position_y = 0) ||
       decide (p.position_z = 0) ||
       decide (c.width ≤ p.position_x + 0) ||
       decide (c.height ≤ p.position_y + 0) ||
       decide (c.depth ≤ p.position_z + 0)) ∧
    calculate_accessibility c items (ps ++ [p]) =
      .ok ((((ps.filter (fun q => isAccessible c items q)).length +
        (if isAccessible c items p then 1 else 0) : ℕ) : ℚ) /
        ((ps.length + 1 : ℕ) : ℚ) * 100) ∧
    (isAccessible c items p = false →
      ∀ b b', calculate_accessibility c items ps = .ok b →
        calculate_accessibility c items (ps ++ [p]) = .ok b' →
        b' ≤ b ∧ (0 < b → b' < b)) := by
  have hsp : calculate_space_efficiency c items (ps ++ [p]) =
      calculate_space_efficiency c items ps := by
    simp [calculate_space_efficiency, List.foldl_append, hfind]
  have hmp : matchedPairs items (ps ++ [p]) = matchedPairs items ps := by
    simp [matchedPairs, List.filterMap_append, hfind]
  have hrt : calculate_retrieval_time sq c items (ps ++ [p]) =
      calculate_retrieval_time sq c items ps := by
    simp only [calculate_retrieval_time, hmp]
  have hia : isAccessible c items p =
      (decide (p.position_x = 0) || decide (p.position_y = 0) ||
       decide (p.position_z = 0) ||
       decide (c.width ≤ p.position_x + 0) ||
       decide (c.height ≤ p.position_y + 0) ||
       decide (c.depth ≤ p.position_z + 0)) := by
    simp [isAccessible, findDim, hfind]
  have hlenf : (List.filter (fun q => isAccessible c items q) (ps ++ [p])).length =
      (ps.filter (fun q => isAccessible c items q)).length +
      (if isAccessible c items p then 1 else 0) := by
    rw [List.filter_append, List.length_append]
    congr 1
    by_cases hacc : isAccessible c items p
    · simp [hacc]
    · simp [hacc]
  have hac : calculate_accessibility c items (ps ++ [p]) =
      .ok ((((ps.filter (fun q => isAccessible c items q)).length +
        (if isAccessible c items p then 1 else 0) : ℕ) : ℚ) /
        ((ps.length + 1 : ℕ) : ℚ) * 100) := by
    simp only [calculate_accessibility, pydiv, List.length_append,
      List.length_cons, List.length_nil, Nat.zero_add, hlenf]
    rw [if_neg (Nat.succ_ne_zero ps.length)]
    rw [if_neg (by exact_mod_cast Nat.succ_ne_zero ps.length)]
  refine ⟨hsp, hrt, hia, hac, ?_⟩
  intro hacc b b' hb hb'
  rw [hac] at hb'
  rw [hacc] at hb'
  simp only [Bool.false_eq_true, if_false, Nat.add_zero] at hb'
  have hb'v : b' = ((ps.filter (fun q => isAccessible c items q)).length : ℚ) /
      ((ps.length : ℚ) + 1) * 100 := by
    have := (Except.ok.inj hb').symm
    rw [this]
    push_cast
    ring
  simp only [calculate_accessibility, pydiv] at hb
  split_ifs at hb with h1 h2
  · -- no previous placements: the old score is the default 100, the new one 0
    have hb100 : b = 100 := (Except.ok.inj hb).symm
    have hps0 : ps = [] := List.length_eq_zero.1 h1
    subst hps0
    rw [hb100, hb'v]
    norm_num
  · have hbv : b = ((ps.filter (fun q => isAccessible c items q)).length : ℚ) /
        (ps.length : ℚ) * 100 := (Except.ok.inj hb).symm
    have hN : (0 : ℚ) < (ps.length : ℚ) := by
      exact_mod_cast Nat.pos_of_ne_zero h1
    have hK : (0 : ℚ) ≤ ((ps.filter (fun q => isAccessible c items q)).length : ℚ) := by
      positivity
    have hN1 : (0 : ℚ) < (ps.length : ℚ) + 1 := by linarith
    constructor
    · rw [hbv, hb'v]
      rw [div_mul_eq_mul_div, div_mul_eq_mul_div, div_le_div_iff hN1 hN]
      nlinarith
    · intro hbpos
      have hKpos : (0 : ℚ) <
          ((ps.filter (fun q => isAccessible c items q)).length : ℚ) := by
        rcases lt_or_eq_of_le hK with hlt | heq
        · exact hlt
        · exfalso
          rw [hbv, ← heq] at hbpos
          norm_num at hbpos
      rw [hbv, hb'v]
      rw [div_mul_eq_mul_div, div_mul_eq_mul_div, div_lt_div_iff hN1 hN]
      nlinarith

/-- Witness for C9: with item list `[item1]`, appending the dangling
placement with id 99 at (3,3,3) leaves space efficiency and retrieval
time unchanged and drops accessibility from 100 to 50. -/
theorem c9_dangling_id_witness :
    calculate_space_efficiency cube10 [item1]
        ([mkPlacement 1 0 0 0] ++ [mkPlacement 99 3 3 3]) =
      calculate_space_efficiency cube10 [item1] [mkPlacement 1 0 0 0] ∧
    calculate_retrieval_time (fun q => q) cube10 [item1]
        ([mkPlacement 1 0 0 0] ++ [mkPlacement 99 3 3 3]) =
      calculate_retrieval_time (fun q => q) cube10 [item1] [mkPlacement 1 0 0 0] ∧
    ((50 : ℚ) ≤ 100 ∧ ((0 : ℚ) < 100 → (50 : ℚ) < 100)) := by
  obtain ⟨h1, h2, -, -, h5⟩ := c9_dangling_id (fun q => q) cube10 [item1]
    [mkPlacement 1 0 0 0] (mkPlacement 99 3 3 3) (by decide)
  refine ⟨h1, h2, ?_⟩
  exact h5 (by with_unfolding_all decide) 100 50
    (by with_unfolding_all decide) (by with_unfolding_all decide)

end Stowage
